import Mathlib

/-!
A shallow embedding of the Busup Venture Canvas interaction core
(src/App.tsx): the slug-based field-identifier scheme, the step
state machine, the answer store, and the export/import codec with its
validation and sanitization rules.

JavaScript runtime values arising from `JSON.parse` are modelled by
`JsValue`; JavaScript numbers are modelled by `Rat` (every number
producible by `JSON.parse` is finite and non-NaN, and float rounding
plays no role in the properties considered here).  The page list is
external data (form-pages.json), so the summary index
`summaryStepIndex = formPages.length` is carried as an explicit
natural-number parameter `n` of each operation.
-/

/-- A JavaScript value as produced by `JSON.parse`: null, booleans,
(finite) numbers, strings, arrays and objects.  Object field lists model
parse results, whose keys are unique (duplicate keys in the source text
are collapsed by the parser). -/
inductive JsValue where
  | null
  | bool (b : Bool)
  | num (x : ℚ)
  | str (s : String)
  | arr (elems : List JsValue)
  | obj (fields : List (String × JsValue))

/-- JavaScript truthiness of a parsed value (`!v` in the source negates
this).  `null`, `false`, `0` and the empty string are falsy; every
object and array (even empty ones) is truthy. -/
def truthy : JsValue → Bool
  | .null => false
  | .bool b => b
  | .num x => decide (x ≠ 0)
  | .str s => decide (s ≠ "")
  | .arr _ => true
  | .obj _ => true

/-- Models `typeof v === 'object'` for a parsed value: true for null,
arrays and objects. -/
def isObjectType : JsValue → Bool
  | .null => true
  | .arr _ => true
  | .obj _ => true
  | _ => false

/-- Field lookup in a parsed object's field list (keys are unique in a
parse result, so first match suffices). -/
def lookupField : List (String × JsValue) → String → Option JsValue
  | [], _ => none
  | (k, v) :: rest, key => if k = key then some v else lookupField rest key

/-- Models JavaScript property access `parsed.key` on a parsed value:
a field lookup on objects, `undefined` (`none`) otherwise. -/
def getField : JsValue → String → Option JsValue
  | .obj fields, key => lookupField fields key
  | _, _ => none

/-- Truthiness of a possibly-`undefined` property access
(`undefined` is falsy). -/
def truthyOpt : Option JsValue → Bool
  | none => false
  | some v => truthy v

/-- Models `Object.entries(v)`: the own enumerable string-keyed entries
of a value.  Objects yield their fields, arrays yield index/element
pairs, strings yield index/character pairs, and primitives yield no
entries. -/
def jsEntries : JsValue → List (String × JsValue)
  | .obj fields => fields
  | .arr elems => elems.enum.map (fun p => (Nat.repr p.1, p.2))
  | .str s => s.data.enum.map (fun p => (Nat.repr p.1, .str (String.mk [p.2])))
  | _ => []

/-- The answer store: a JavaScript `Record<string, string>` modelled as
an association list with unique keys kept in insertion order. -/
abbrev AnswerMap : Type := List (String × String)

/-- Models the JavaScript object assignment `acc[key] = value`:
overwrite in place when the key is present, append otherwise. -/
def recordSet (m : AnswerMap) (key value : String) : AnswerMap :=
  if List.any m (fun p => decide (p.1 = key)) then
    List.map (fun p => if p.1 = key then (key, value) else p) m
  else
    m ++ [(key, value)]

/-- One step of the sanitizing `reduce` in `parseImport` (lines
116-124): keep an entry only when its value is a string. -/
def sanitizeStep (acc : AnswerMap) (entry : String × JsValue) : AnswerMap :=
  match entry.2 with
  | .str v => recordSet acc entry.1 v
  | _ => acc

/-- The sanitizing `reduce` of `parseImport`: fold the entries of the
untrusted `answers` value into a fresh answer map, keeping only
string-valued entries. -/
def sanitizeAnswers (entries : List (String × JsValue)) : AnswerMap :=
  List.foldl sanitizeStep [] entries

/-- The string-valued entries of an untrusted entry list, as a
specification-level description of what sanitization keeps. -/
def strOnly (p : String × JsValue) : Option (String × String) :=
  match p.2 with
  | .str v => some (p.1, v)
  | _ => none

/-- The mutable session state of the interaction core: the current step
(`useState(0)`) and the answer map (`useState<AnswerMap>(curly braces)`,
initially empty).  JavaScript numbers are modelled by `Rat`. -/
structure AppState where
  currentStep : ℚ
  answers : AnswerMap
deriving DecidableEq

/-- `goToStep` (lines 64-66): clamp the requested index into
`[0, summaryStepIndex]` and set the current step.  `n` is
`summaryStepIndex`. -/
def goToStep (n : ℕ) (s : AppState) (stepIndex : ℚ) : AppState :=
  { s with currentStep := max 0 (min stepIndex (n : ℚ)) }

/-- `handleInputChange` (lines 60-62): upsert one answer, leaving the
rest of the state alone. -/
def handleInputChange (s : AppState) (fieldId value : String) : AppState :=
  { s with answers := recordSet s.answers fieldId value }

/-- `handleBack` (lines 77-79): `goToStep(currentStep - 1)`. -/
def handleBack (n : ℕ) (s : AppState) : AppState :=
  goToStep n s (s.currentStep - 1)

/-- `handleNext` (lines 68-75): at the summary step trigger the export
instead of moving; otherwise `goToStep(currentStep + 1)`.  The boolean
records whether the export was triggered. -/
def handleNext (n : ℕ) (s : AppState) : AppState × Bool :=
  if s.currentStep = (n : ℚ) then (s, true)
  else (goToStep n s (s.currentStep + 1), false)

/-- The export payload built by `handleExport` (lines 83-88): the
JSON-serializable object offered for download.  `exportedAt` is the
caller-supplied timestamp string. -/
def handleExport (exportedAt : String) (s : AppState) : JsValue :=
  .obj [("version", .num 1),
        ("exportedAt", .str exportedAt),
        ("currentStep", .num s.currentStep),
        ("answers", .obj (List.map (fun p => (p.1, JsValue.str p.2)) s.answers))]

/-- The import failure modes: `JSON.parse` threw on malformed text, or
the explicit guard threw (the message on line 113). -/
inductive ImportError where
  | badJson
  | noAnswers
deriving DecidableEq

deriving instance DecidableEq for Except

/-- The imported step computed on lines 126-129: accepted when the
`currentStep` property is a number (every parsed number is finite and
non-NaN, so the `Number.isNaN` test never fires), clamped into
`[0, summaryStepIndex]`; every other shape defaults to 0. -/
def importedStepOf (n : ℕ) (parsed : JsValue) : ℚ :=
  match getField parsed "currentStep" with
  | some (.num x) => max 0 (min x (n : ℚ))
  | _ => 0

/-- `parseImport` (lines 105-136).  The input is the outcome of
`JSON.parse` on the raw text: `none` when the text is not well-formed
JSON (the parser threw), `some parsed` otherwise.  The guard on line
112 is the JavaScript test
`!parsed || typeof parsed !== 'object' || !parsed.answers`.
On success the sanitized answers replace the old map wholesale and the
clamped step is applied through `goToStep`. -/
def parseImport (n : ℕ) (s : AppState) (parsed? : Option JsValue) :
    Except ImportError AppState :=
  match parsed? with
  | none => .error .badJson
  | some parsed =>
    if !truthy parsed || !isObjectType parsed
        || !truthyOpt (getField parsed "answers") then
      .error .noAnswers
    else
      let sanitizedAnswers :=
        match getField parsed "answers" with
        | some a => sanitizeAnswers (jsEntries a)
        | none => []
      let importedStep := importedStepOf n parsed
      .ok (goToStep n { s with answers := sanitizedAnswers } importedStep)

/-- `handleFiles` (lines 138-153): run the import and catch any failure
at the operation boundary, leaving the state untouched on failure.  The
boolean records success. -/
def handleFiles (n : ℕ) (s : AppState) (parsed? : Option JsValue) :
    AppState × Bool :=
  match parseImport n s parsed? with
  | .ok s' => (s', true)
  | .error _ => (s, false)

/-- The character class `[a-z0-9]` that the run-replacing regex on line
36 of src/App.tsx keeps. -/
def isSlugChar (c : Char) : Bool :=
  decide ('a' ≤ c ∧ c ≤ 'z') || decide ('0' ≤ c ∧ c ≤ '9')

/-- The character class of the mark-stripping regex on line 35: the
code points U+0300 to U+036F (the Combining Diacritical Marks block,
which is exactly the set of combining marks produced by canonical
decomposition of the Latin letters covered by this model). -/
def inCombiningRange (c : Char) : Bool :=
  decide (0x300 ≤ c.toNat ∧ c.toNat ≤ 0x36F)

/-- Combining grave accent U+0300. -/
def combGrave : Char := Char.ofNat 0x300

/-- Combining acute accent U+0301. -/
def combAcute : Char := Char.ofNat 0x301

/-- Combining circumflex U+0302. -/
def combCirc : Char := Char.ofNat 0x302

/-- Combining tilde U+0303. -/
def combTilde : Char := Char.ofNat 0x303

/-- Combining diaeresis U+0308. -/
def combDiaer : Char := Char.ofNat 0x308

/-- Combining ring above U+030A. -/
def combRing : Char := Char.ofNat 0x30A

/-- Combining cedilla U+0327. -/
def combCedilla : Char := Char.ofNat 0x327

/-- Models `String.prototype.toLowerCase` character-wise on the Basic
Latin and Latin-1 ranges (the alphabets of the form's Spanish question
text); identity elsewhere.  The full Unicode case table is outside the
scope of this model. -/
def jsLowerChar (c : Char) : Char :=
  if 'A' ≤ c ∧ c ≤ 'Z' then Char.ofNat (c.toNat + 32)
  else if 0xC0 ≤ c.toNat ∧ c.toNat ≤ 0xDE ∧ c.toNat ≠ 0xD7 then
    Char.ofNat (c.toNat + 32)
  else c

/-- Models `String.prototype.normalize('NFD')` character-wise: canonical
decomposition of the lowercase Latin-1 precomposed letters (the ones
reachable after lower-casing the form's question text); identity
elsewhere.  The full Unicode decomposition table is outside the scope
of this model. -/
def nfdChar : Char → List Char
  | 'à' => ['a', combGrave]
  | 'á' => ['a', combAcute]
  | 'â' => ['a', combCirc]
  | 'ã' => ['a', combTilde]
  | 'ä' => ['a', combDiaer]
  | 'å' => ['a', combRing]
  | 'ç' => ['c', combCedilla]
  | 'è' => ['e', combGrave]
  | 'é' => ['e', combAcute]
  | 'ê' => ['e', combCirc]
  | 'ë' => ['e', combDiaer]
  | 'ì' => ['i', combGrave]
  | 'í' => ['i', combAcute]
  | 'î' => ['i', combCirc]
  | 'ï' => ['i', combDiaer]
  | 'ñ' => ['n', combTilde]
  | 'ò' => ['o', combGrave]
  | 'ó' => ['o', combAcute]
  | 'ô' => ['o', combCirc]
  | 'õ' => ['o', combTilde]
  | 'ö' => ['o', combDiaer]
  | 'ù' => ['u', combGrave]
  | 'ú' => ['u', combAcute]
  | 'û' => ['u', combCirc]
  | 'ü' => ['u', combDiaer]
  | 'ý' => ['y', combAcute]
  | 'ÿ' => ['y', combDiaer]
  | c => [c]

/-- Character-list version of `normalize('NFD')`. -/
def nfdList : List Char → List Char
  | [] => []
  | c :: cs => nfdChar c ++ nfdList cs

/-- The regex replacement `[^a-z0-9]+` to `'-'` on line 36: every
maximal run of characters outside `[a-z0-9]` becomes a single hyphen.
`inRun` records whether the previous character was part of such a run
(whose hyphen has already been emitted). -/
def replaceRunsAux (inRun : Bool) : List Char → List Char
  | [] => []
  | c :: cs =>
    if isSlugChar c then c :: replaceRunsAux false cs
    else if inRun then replaceRunsAux true cs
    else '-' :: replaceRunsAux true cs

/-- Drop a single leading hyphen, the `^-` alternative of the trimming
regex on line 37. -/
def dropLeadingHyphen : List Char → List Char
  | [] => []
  | c :: cs => if c = '-' then cs else c :: cs

/-- Drop a single trailing hyphen, the `-$` alternative of the trimming
regex on line 37. -/
def dropTrailingHyphen (cs : List Char) : List Char :=
  (dropLeadingHyphen cs.reverse).reverse

/-- The global replacement `(^-|-$)` to the empty string on line 37: it
removes one leading and one trailing hyphen (for the one-character
string consisting of a hyphen, the single match is the leading one). -/
def trimHyphensOnce (cs : List Char) : List Char :=
  dropTrailingHyphen (dropLeadingHyphen cs)

/-- `slugify` (lines 31-37): lower-case, canonically decompose, strip
the U+0300-U+036F marks, replace runs of non-`[a-z0-9]` characters by
single hyphens, and trim a leading/trailing hyphen. -/
def slugify (value : String) : String :=
  String.mk
    (trimHyphensOnce
      (replaceRunsAux false
        (List.filter (fun c => !inCombiningRange c)
          (nfdList (List.map jsLowerChar value.data)))))

/-- `makeFieldId` (lines 39-40): the template
`step-$(pageIndex)-$(slugify(question))`. -/
def makeFieldId (pageIndex : ℕ) (question : String) : String :=
  "step-" ++ Nat.repr pageIndex ++ "-" ++ slugify question

/-- The predicate "is a combining mark" used by the specification's
description of the slug algorithm.  Within the Latin fragment covered
by this model the combining marks are exactly the Combining Diacritical
Marks block U+0300-U+036F. -/
def isCombiningMark (c : Char) : Bool :=
  decide (0x300 ≤ c.toNat ∧ c.toNat ≤ 0x36F)

/-- Remove every leading and every trailing hyphen, the specification's
reading of "trimming leading/trailing hyphens". -/
def trimAllHyphens (cs : List Char) : List Char :=
  (((cs.dropWhile (fun c => c == '-')).reverse.dropWhile
      (fun c => c == '-'))).reverse

/-- The slug as described by the specification's words: "normalize
`question` by lower-casing, stripping diacritics (Unicode canonical
decomposition + removal of combining marks), replacing every run of non
`[a-z0-9]` characters with a single hyphen, then trimming
leading/trailing hyphens". -/
def specSlugify (value : String) : String :=
  String.mk
    (trimAllHyphens
      (replaceRunsAux false
        (List.filter (fun c => !isCombiningMark c)
          (nfdList (List.map jsLowerChar value.data)))))

/-- Property lookup on the answer map (keys are unique, so first match
suffices). -/
def lookupAnswer : AnswerMap → String → Option String
  | [], _ => none
  | (k, v) :: rest, key => if k = key then some v else lookupAnswer rest key

/-- Models the read `answers[fieldId] ?? ''` (line 272): the stored
answer, defaulting to the empty string when absent. -/
def getAnswer (s : AppState) (fieldId : String) : String :=
  (lookupAnswer s.answers fieldId).getD ""

/-- The decimal digit list of a natural number, most significant digit
first; a recursive restatement of `Nat.toDigits 10` used to reason
about the `Nat.repr` embedded in `makeFieldId`. -/
def digitsRec (m : ℕ) : List Char :=
  if h : m < 10 then [Nat.digitChar m]
  else
    have : m / 10 < m := Nat.div_lt_self (by omega) (by omega)
    digitsRec (m / 10) ++ [Nat.digitChar (m % 10)]
termination_by m

/-- No two adjacent hyphens occur in the list: the shape of
`replaceRunsAux` output, which makes the one-shot hyphen trimming of
the source regex agree with trimming all leading/trailing hyphens. -/
def NoAdjHyphens (l : List Char) : Prop :=
  List.Chain' (fun a b => a = '-' → b ≠ '-') l

/-- Overwriting one key of a record leaves lookups of other keys
unchanged (map branch of `recordSet`). -/
lemma lookupAnswer_map_set (m : AnswerMap) (key value key' : String)
    (h : key' ≠ key) :
    lookupAnswer
      (List.map (fun p => if p.1 = key then (key, value) else p) m) key'
      = lookupAnswer m key' := by
  induction m with
  | nil => rfl
  | cons p m ih =>
    rcases p with ⟨k, v⟩
    by_cases hk : k = key
    · subst hk
      rw [List.map_cons, if_pos (show ((k, v).1 = k) from rfl)]
      simp only [lookupAnswer]
      rw [if_neg (Ne.symm h), if_neg (Ne.symm h)]
      exact ih
    · rw [List.map_cons, if_neg (show ¬((k, v).1 = key) from hk)]
      simp only [lookupAnswer]
      by_cases hky : k = key'
      · rw [if_pos hky, if_pos hky]
      · rw [if_neg hky, if_neg hky]
        exact ih

/-- Appending a fresh key to a record leaves lookups of other keys
unchanged (append branch of `recordSet`). -/
lemma lookupAnswer_append_single (m : AnswerMap) (key value key' : String)
    (h : key' ≠ key) :
    lookupAnswer (m ++ [(key, value)]) key' = lookupAnswer m key' := by
  induction m with
  | nil =>
    show lookupAnswer [(key, value)] key' = none
    simp only [lookupAnswer]
    rw [if_neg (Ne.symm h)]
  | cons p m ih =>
    rcases p with ⟨k, v⟩
    show lookupAnswer ((k, v) :: (m ++ [(key, value)])) key' = _
    simp only [lookupAnswer, ih]

/-- `recordSet` does not disturb the value stored at any other key. -/
lemma lookupAnswer_recordSet_ne (m : AnswerMap) (key value key' : String)
    (h : key' ≠ key) :
    lookupAnswer (recordSet m key value) key' = lookupAnswer m key' := by
  unfold recordSet
  split
  · exact lookupAnswer_map_set m key value key' h
  · exact lookupAnswer_append_single m key value key' h

/-- The step written by `goToStep` always lies in `[0, n]`. -/
lemma goToStep_bounds (n : ℕ) (s : AppState) (x : ℚ) :
    0 ≤ (goToStep n s x).currentStep ∧
    (goToStep n s x).currentStep ≤ (n : ℚ) :=
  ⟨le_max_left 0 _, max_le (Nat.cast_nonneg n) (min_le_right _ _)⟩

/-- Any state produced by a successful import was written through
`goToStep`. -/
lemma parseImport_ok_shape (n : ℕ) (s s' : AppState) (p : Option JsValue)
    (h : parseImport n s p = .ok s') :
    ∃ (m : AnswerMap) (x : ℚ), s' = goToStep n { s with answers := m } x := by
  cases p with
  | none => exact absurd h (by simp [parseImport])
  | some parsed =>
    simp only [parseImport] at h
    by_cases hg : (!truthy parsed || !isObjectType parsed
        || !truthyOpt (getField parsed "answers")) = true
    · rw [if_pos hg] at h
      exact absurd h (by simp)
    · rw [if_neg hg] at h
      simp only [Except.ok.injEq] at h
      exact ⟨_, _, h.symm⟩

/-- C7: for every integer (including negative or far out-of-range
values) handed to `goTo`, the resulting step lies within
`[0, pageCount]`; the invariant is preserved by `back`, `next`, answer
edits and file imports; and `back()` at step 0 leaves the step at 0. -/
theorem step_index_always_in_range (n : ℕ) :
    (∀ (s : AppState) (k : ℤ),
        0 ≤ (goToStep n s (k : ℚ)).currentStep ∧
        (goToStep n s (k : ℚ)).currentStep ≤ (n : ℚ)) ∧
    (∀ s : AppState,
        0 ≤ (handleBack n s).currentStep ∧
        (handleBack n s).currentStep ≤ (n : ℚ)) ∧
    (∀ s : AppState, 0 ≤ s.currentStep → s.currentStep ≤ (n : ℚ) →
        0 ≤ (handleNext n s).1.currentStep ∧
        (handleNext n s).1.currentStep ≤ (n : ℚ)) ∧
    (∀ (s : AppState) (fieldId value : String),
        0 ≤ s.currentStep → s.currentStep ≤ (n : ℚ) →
        0 ≤ (handleInputChange s fieldId value).currentStep ∧
        (handleInputChange s fieldId value).currentStep ≤ (n : ℚ)) ∧
    (∀ (s : AppState) (p : Option JsValue),
        0 ≤ s.currentStep → s.currentStep ≤ (n : ℚ) →
        0 ≤ (handleFiles n s p).1.currentStep ∧
        (handleFiles n s p).1.currentStep ≤ (n : ℚ)) ∧
    (∀ s : AppState, s.currentStep = 0 → (handleBack n s).currentStep = 0) := by
  refine ⟨fun s k => goToStep_bounds n s _,
          fun s => goToStep_bounds n s _,
          fun s h0 h1 => ?_,
          fun s fieldId value h0 h1 => ⟨h0, h1⟩,
          fun s p h0 h1 => ?_,
          fun s h => ?_⟩
  · unfold handleNext
    split
    · exact ⟨h0, h1⟩
    · exact goToStep_bounds n s _
  · unfold handleFiles
    cases hp : parseImport n s p with
    | ok s' =>
      obtain ⟨m, x, rfl⟩ := parseImport_ok_shape n s s' p hp
      exact goToStep_bounds n _ _
    | error e => exact ⟨h0, h1⟩
  · have hb : (handleBack n s).currentStep
        = max 0 (min (s.currentStep - 1) (n : ℚ)) := rfl
    rw [hb, h]
    rw [min_eq_left (le_trans (by norm_num) (Nat.cast_nonneg n)),
        max_eq_left (by norm_num)]

/-- Witness for C7 at a concrete input: `goTo(-7)` with summary index 3
lands in range, and `back()` at step 0 stays at 0. -/
theorem step_index_always_in_range_witness :
    (0 ≤ (goToStep 3 ⟨0, []⟩ ((-7 : ℤ) : ℚ)).currentStep ∧
      (goToStep 3 ⟨0, []⟩ ((-7 : ℤ) : ℚ)).currentStep ≤ ((3 : ℕ) : ℚ)) ∧
    (handleBack 3 ⟨0, []⟩).currentStep = 0 :=
  ⟨(step_index_always_in_range 3).1 ⟨0, []⟩ (-7),
   (step_index_always_in_range 3).2.2.2.2.2 ⟨0, []⟩ rfl⟩

/-- C8: `next()` at the terminal summary step triggers the export and
leaves the state unchanged; at any other step it moves the step to
`current + 1` through `goToStep`. -/
theorem next_at_summary_exports_else_advances (n : ℕ) (s : AppState) :
    (s.currentStep = (n : ℚ) → handleNext n s = (s, true)) ∧
    (s.currentStep ≠ (n : ℚ) →
      handleNext n s = (goToStep n s (s.currentStep + 1), false)) := by
  constructor
  · intro h
    unfold handleNext
    rw [if_pos h]
  · intro h
    unfold handleNext
    rw [if_neg h]

/-- Witness for C8 at a concrete input: with summary index 2, `next` at
step 2 exports without moving, and `next` at step 0 advances to 1. -/
theorem next_at_summary_exports_else_advances_witness :
    handleNext 2 ⟨2, []⟩ = (⟨2, []⟩, true) ∧
    handleNext 2 ⟨0, []⟩ = (goToStep 2 ⟨0, []⟩ (0 + 1), false) :=
  ⟨(next_at_summary_exports_else_advances 2 ⟨2, []⟩).1 (by norm_num),
   (next_at_summary_exports_else_advances 2 ⟨0, []⟩).2 (by norm_num)⟩

/-- C10: setting one answer through `handleInputChange` leaves the step
unchanged and leaves the stored answer of every other key unchanged. -/
theorem set_answer_frame (s : AppState) (fieldId value : String) :
    (handleInputChange s fieldId value).currentStep = s.currentStep ∧
    ∀ fieldId', fieldId' ≠ fieldId →
      getAnswer (handleInputChange s fieldId value) fieldId'
        = getAnswer s fieldId' := by
  refine ⟨rfl, fun fieldId' h => ?_⟩
  show (lookupAnswer (recordSet s.answers fieldId value) fieldId').getD ""
      = (lookupAnswer s.answers fieldId').getD ""
  rw [lookupAnswer_recordSet_ne s.answers fieldId value fieldId' h]

/-- Witness for C10 at a concrete input. -/
theorem set_answer_frame_witness :
    (handleInputChange ⟨1, [("a", "1"), ("b", "2")]⟩ "a" "9").currentStep
        = AppState.currentStep ⟨1, [("a", "1"), ("b", "2")]⟩ ∧
    getAnswer (handleInputChange ⟨1, [("a", "1"), ("b", "2")]⟩ "a" "9") "b"
        = getAnswer ⟨1, [("a", "1"), ("b", "2")]⟩ "b" :=
  ⟨(set_answer_frame ⟨1, [("a", "1"), ("b", "2")]⟩ "a" "9").1,
   (set_answer_frame ⟨1, [("a", "1"), ("b", "2")]⟩ "a" "9").2 "b" (by decide)⟩

/-- Setting a key that is absent from the record appends the pair. -/
lemma recordSet_fresh (m : AnswerMap) (key value : String)
    (h : ∀ p ∈ m, p.1 ≠ key) :
    recordSet m key value = m ++ [(key, value)] := by
  have hc : ¬(List.any m (fun p => decide (p.1 = key)) = true) := by
    rw [List.any_eq_true]
    rintro ⟨p, hp, hpk⟩
    exact h p hp (of_decide_eq_true hpk)
  unfold recordSet
  rw [if_neg hc]

/-- The sanitizing fold over an entry list with pairwise-distinct keys
(the shape `Object.entries` of a parsed object always has) appends
exactly the string-valued entries to the accumulator. -/
lemma sanitize_foldl_fresh (es : List (String × JsValue)) :
    ∀ acc : AnswerMap,
      (List.map Prod.fst es).Nodup →
      (∀ k, k ∈ List.map Prod.fst es → ∀ p ∈ acc, p.1 ≠ k) →
      List.foldl sanitizeStep acc es = acc ++ List.filterMap strOnly es := by
  induction es with
  | nil =>
    intro acc _ _
    simp
  | cons e tl ih =>
    intro acc hnd hfresh
    rcases e with ⟨k, v⟩
    rw [List.map_cons, List.nodup_cons] at hnd
    have htl : ∀ k', k' ∈ List.map Prod.fst tl → ∀ p ∈ acc, p.1 ≠ k' :=
      fun k' hk' =>
        hfresh k' (by rw [List.map_cons]; exact List.mem_cons_of_mem _ hk')
    cases v with
    | str w =>
      have hkfresh : ∀ p ∈ acc, p.1 ≠ k :=
        hfresh k (by rw [List.map_cons]; exact List.mem_cons_self _ _)
      have hstep : sanitizeStep acc (k, JsValue.str w) = acc ++ [(k, w)] :=
        recordSet_fresh acc k w hkfresh
      rw [List.foldl_cons, hstep]
      rw [ih (acc ++ [(k, w)]) hnd.2 ?_]
      · rw [List.filterMap_cons_some
              (show strOnly (k, JsValue.str w) = some (k, w) from rfl),
            List.append_assoc]
        rfl
      · intro k' hk' p hp
        rcases List.mem_append.mp hp with hpa | hpb
        · exact htl k' hk' p hpa
        · rw [List.mem_singleton.mp hpb]
          intro hek
          exact hnd.1 (hek ▸ hk')
    | null =>
      rw [List.foldl_cons]
      exact ih acc hnd.2 htl
    | bool b =>
      rw [List.foldl_cons]
      exact ih acc hnd.2 htl
    | num x =>
      rw [List.foldl_cons]
      exact ih acc hnd.2 htl
    | arr elems =>
      rw [List.foldl_cons]
      exact ih acc hnd.2 htl
    | obj fields =>
      rw [List.foldl_cons]
      exact ih acc hnd.2 htl

/-- On an entry list with pairwise-distinct keys, sanitization keeps
exactly the string-valued entries, in order. -/
lemma sanitizeAnswers_eq_filterMap (es : List (String × JsValue))
    (hnd : (List.map Prod.fst es).Nodup) :
    sanitizeAnswers es = List.filterMap strOnly es := by
  have h := sanitize_foldl_fresh es [] hnd (by intro k _ p hp; cases hp)
  simpa [sanitizeAnswers] using h

/-- Evaluation of a successful `parseImport`: when the guard passes and
the `answers` property is present, the result is the sanitized entries
and the clamped step. -/
lemma parseImport_ok_eval (n : ℕ) (s : AppState) (parsed : JsValue)
    (hguard : (!truthy parsed || !isObjectType parsed
        || !truthyOpt (getField parsed "answers")) = false)
    (a : JsValue) (ha : getField parsed "answers" = some a) :
    parseImport n s (some parsed)
      = .ok (goToStep n { s with answers := sanitizeAnswers (jsEntries a) }
          (importedStepOf n parsed)) := by
  simp only [parseImport]
  rw [if_neg (by rw [hguard]; exact Bool.false_ne_true), ha]

/-- C1: for every step in `[0, pageCount]` and every answer map (whose
values are strings by construction and whose keys are distinct, as in
any JavaScript record), importing the document produced by
`handleExport` restores exactly the same answer map and the same step;
the `version` and `exportedAt` envelope fields are ignored. -/
theorem import_export_roundtrip (n : ℕ) (step : ℚ) (answers : AnswerMap)
    (exportedAt : String) (s : AppState)
    (h0 : 0 ≤ step) (h1 : step ≤ (n : ℚ))
    (hnd : (List.map Prod.fst answers).Nodup) :
    parseImport n s (some (handleExport exportedAt ⟨step, answers⟩))
      = .ok ⟨step, answers⟩ := by
  have hfield :
      getField (handleExport exportedAt ⟨step, answers⟩) "answers"
        = some (.obj (List.map (fun p => (p.1, JsValue.str p.2)) answers)) := by
    simp [handleExport, getField, lookupField]
  have hstepf :
      getField (handleExport exportedAt ⟨step, answers⟩) "currentStep"
        = some (.num step) := by
    simp [handleExport, getField, lookupField]
  have hguard : (!truthy (handleExport exportedAt ⟨step, answers⟩)
      || !isObjectType (handleExport exportedAt ⟨step, answers⟩)
      || !truthyOpt (getField (handleExport exportedAt ⟨step, answers⟩)
            "answers")) = false := by
    rw [hfield]
    simp [handleExport, truthy, isObjectType, truthyOpt]
  rw [parseImport_ok_eval n s _ hguard _ hfield]
  have hsan :
      sanitizeAnswers (jsEntries
          (.obj (List.map (fun p => (p.1, JsValue.str p.2)) answers)))
        = answers := by
    rw [jsEntries, sanitizeAnswers_eq_filterMap, List.filterMap_map]
    · have hcomp : (strOnly ∘ fun p : String × String =>
          (p.1, JsValue.str p.2)) = some := by
        funext p
        rfl
      rw [hcomp, List.filterMap_some]
    · rw [List.map_map]
      have hcomp : (Prod.fst ∘ fun p : String × String =>
          (p.1, JsValue.str p.2)) = Prod.fst := by
        funext p
        rfl
      rw [hcomp]
      exact hnd
  have hstep' : importedStepOf n (handleExport exportedAt ⟨step, answers⟩)
      = step := by
    unfold importedStepOf
    rw [hstepf]
    show max 0 (min step (n : ℚ)) = step
    rw [min_eq_left h1, max_eq_right h0]
  rw [hsan, hstep']
  show Except.ok (AppState.mk (max 0 (min step (n : ℚ))) answers)
      = Except.ok (AppState.mk step answers)
  rw [min_eq_left h1, max_eq_right h0]

/-- Witness for C1 at a concrete input: a two-entry answer map at step
2 with summary index 3 survives the export/import round trip. -/
theorem import_export_roundtrip_witness :
    parseImport 3 ⟨0, []⟩
        (some (handleExport "2024-01-01T00:00:00.000Z"
          ⟨2, [("step-0-nombre", "Acme"), ("step-1-meta", "x")]⟩))
      = .ok ⟨2, [("step-0-nombre", "Acme"), ("step-1-meta", "x")]⟩ :=
  import_export_roundtrip 3 2
    [("step-0-nombre", "Acme"), ("step-1-meta", "x")]
    "2024-01-01T00:00:00.000Z" ⟨0, []⟩
    (by norm_num) (by norm_num) (by decide)

/-- When the guard on line 112 fires, `parseImport` throws. -/
lemma parseImport_guard_true (n : ℕ) (s : AppState) (j : JsValue)
    (hg : (!truthy j || !isObjectType j
        || !truthyOpt (getField j "answers")) = true) :
    parseImport n s (some j) = .error .noAnswers := by
  simp only [parseImport]
  rw [if_pos hg]

/-- A passing guard means the document is truthy, of object type, and
carries a truthy `answers` property. -/
lemma guard_false_parts (j : JsValue)
    (hg : (!truthy j || !isObjectType j
        || !truthyOpt (getField j "answers")) = false) :
    truthy j = true ∧ isObjectType j = true
      ∧ truthyOpt (getField j "answers") = true := by
  have hg' := hg
  simp at hg'
  exact ⟨hg'.1.1, hg'.1.2, hg'.2⟩

/-- A passing guard means the `answers` property is present. -/
lemma guard_false_answers_some (j : JsValue)
    (hg : (!truthy j || !isObjectType j
        || !truthyOpt (getField j "answers")) = false) :
    ∃ a, getField j "answers" = some a := by
  obtain ⟨-, -, h3⟩ := guard_false_parts j hg
  cases hget : getField j "answers" with
  | none =>
    rw [hget] at h3
    exact absurd h3 (by simp [truthyOpt])
  | some a => exact ⟨a, rfl⟩

/-- The step computed from an untrusted document is always within
`[0, n]`. -/
lemma importedStepOf_bounds (n : ℕ) (j : JsValue) :
    0 ≤ importedStepOf n j ∧ importedStepOf n j ≤ (n : ℚ) := by
  unfold importedStepOf
  split
  · exact ⟨le_max_left 0 _, max_le (Nat.cast_nonneg n) (min_le_right _ _)⟩
  · exact ⟨le_refl 0, Nat.cast_nonneg n⟩

/-- Re-clamping the already-clamped imported step (as `goToStep` does)
changes nothing. -/
lemma clamp_importedStep (n : ℕ) (j : JsValue) :
    max 0 (min (importedStepOf n j) (n : ℚ)) = importedStepOf n j := by
  obtain ⟨h0, h1⟩ := importedStepOf_bounds n j
  rw [min_eq_left h1, max_eq_right h0]

/-- C3: on a successful import the new step is the document's
`currentStep` when that property is a number (every number a JSON
parser can produce is finite and non-NaN), 0 for every other shape,
clamped into `[0, pageCount]`; in particular the new step always lies
in `[0, pageCount]`. -/
theorem import_step_accepted_and_clamped (n : ℕ) (s s' : AppState)
    (j : JsValue) (h : parseImport n s (some j) = .ok s') :
    s'.currentStep = importedStepOf n j ∧
    0 ≤ s'.currentStep ∧ s'.currentStep ≤ (n : ℚ) := by
  by_cases hg : (!truthy j || !isObjectType j
      || !truthyOpt (getField j "answers")) = true
  · rw [parseImport_guard_true n s j hg] at h
    exact absurd h (by simp)
  · have hgf : (!truthy j || !isObjectType j
        || !truthyOpt (getField j "answers")) = false := Bool.eq_false_iff.mpr hg
    obtain ⟨a, ha⟩ := guard_false_answers_some j hgf
    rw [parseImport_ok_eval n s j hgf a ha] at h
    have h' := Except.ok.inj h
    subst h'
    refine ⟨clamp_importedStep n j, ?_, ?_⟩
    · exact (goToStep_bounds n _ _).1
    · exact (goToStep_bounds n _ _).2

/-- Witness for C3 at a concrete input: a document whose `currentStep`
is the string "9" imports at step 0. -/
theorem import_step_accepted_and_clamped_witness :
    AppState.currentStep ⟨0, [("a", "b")]⟩
        = importedStepOf 3 (.obj [("answers", .obj [("a", .str "b")]),
            ("currentStep", .str "9")]) ∧
    0 ≤ AppState.currentStep ⟨0, [("a", "b")]⟩ ∧
    AppState.currentStep ⟨0, [("a", "b")]⟩ ≤ ((3 : ℕ) : ℚ) :=
  import_step_accepted_and_clamped 3 ⟨5, []⟩ ⟨0, [("a", "b")]⟩
    (.obj [("answers", .obj [("a", .str "b")]), ("currentStep", .str "9")])
    (by decide)

/-- C4: on a successful import of a document whose `answers` is an
object, the new answer map consists of exactly the string-valued
entries (non-string entries are silently dropped), wholesale-replacing
the prior map; in particular the spec's example document imports, with
summary index 3, to the single-entry map and clamped step 3 whatever
the prior state was. -/
theorem import_keeps_exactly_string_entries (n : ℕ) :
    (∀ (s s' : AppState) (j : JsValue) (es : List (String × JsValue)),
        getField j "answers" = some (.obj es) →
        (List.map Prod.fst es).Nodup →
        parseImport n s (some j) = .ok s' →
        s'.answers = List.filterMap strOnly es) ∧
    (∀ s : AppState,
        parseImport 3 s (some (.obj
            [("answers", .obj [("x", .str "y"), ("z", .num 42)]),
             ("currentStep", .num 99)]))
          = .ok ⟨3, [("x", "y")]⟩) := by
  constructor
  · intro s s' j es ha hnd h
    by_cases hg : (!truthy j || !isObjectType j
        || !truthyOpt (getField j "answers")) = true
    · rw [parseImport_guard_true n s j hg] at h
      exact absurd h (by simp)
    · have hgf : (!truthy j || !isObjectType j
          || !truthyOpt (getField j "answers")) = false :=
        Bool.eq_false_iff.mpr hg
      rw [parseImport_ok_eval n s j hgf _ ha] at h
      have h' := Except.ok.inj h
      subst h'
      show sanitizeAnswers (jsEntries (.obj es)) = _
      rw [jsEntries, sanitizeAnswers_eq_filterMap es hnd]
  · intro s
    rcases s with ⟨c, m⟩
    rfl

/-- Witness for C4 at a concrete input: the example document's
sanitized map is exactly its string-valued entries. -/
theorem import_keeps_exactly_string_entries_witness :
    AppState.answers ⟨3, [("x", "y")]⟩
        = List.filterMap strOnly [("x", .str "y"), ("z", .num 42)] ∧
    parseImport 3 ⟨0, [("old", "gone")]⟩ (some (.obj
        [("answers", .obj [("x", .str "y"), ("z", .num 42)]),
         ("currentStep", .num 99)]))
      = .ok ⟨3, [("x", "y")]⟩ :=
  ⟨(import_keeps_exactly_string_entries 3).1 ⟨0, [("old", "gone")]⟩
      ⟨3, [("x", "y")]⟩
      (.obj [("answers", .obj [("x", .str "y"), ("z", .num 42)]),
             ("currentStep", .num 99)])
      [("x", .str "y"), ("z", .num 42)] rfl (by decide)
      ((import_keeps_exactly_string_entries 3).2 ⟨0, [("old", "gone")]⟩),
   (import_keeps_exactly_string_entries 3).2 ⟨0, [("old", "gone")]⟩⟩

/-- C9: the presence check on `answers` is a truthiness check: a falsy
`answers` property (absent, or present with value null, false, 0 or the
empty string) makes the import fail, while a truthy `answers` on a
truthy object-typed document is accepted whatever its type, its
enumerable entries being sanitized; in particular a document whose
`answers` is the string "ab" imports as the map sending "0" to "a" and
"1" to "b". -/
theorem answers_presence_is_truthiness (n : ℕ) :
    (∀ (s : AppState) (j : JsValue),
        truthyOpt (getField j "answers") = false →
        parseImport n s (some j) = .error .noAnswers) ∧
    (∀ (s : AppState) (j : JsValue),
        truthy j = true → isObjectType j = true →
        truthyOpt (getField j "answers") = true →
        (parseImport n s (some j)).isOk = true) ∧
    (∀ s : AppState,
        parseImport 3 s (some (.obj [("answers", .str "ab")]))
          = .ok ⟨0, [("0", "a"), ("1", "b")]⟩) := by
  refine ⟨fun s j hf => ?_, fun s j h1 h2 h3 => ?_, fun s => ?_⟩
  · apply parseImport_guard_true
    rw [hf]
    simp
  · have hgf : (!truthy j || !isObjectType j
        || !truthyOpt (getField j "answers")) = false := by
      rw [h1, h2, h3]
      rfl
    obtain ⟨a, ha⟩ := guard_false_answers_some j hgf
    rw [parseImport_ok_eval n s j hgf a ha]
    rfl
  · rcases s with ⟨c, m⟩
    rfl

/-- Witness for C9 at concrete inputs: a present-but-falsy `answers`
fails, a truthy string-valued `answers` imports its characters. -/
theorem answers_presence_is_truthiness_witness :
    parseImport 3 ⟨2, [("a", "b")]⟩ (some (.obj [("answers", .num 0)]))
        = .error .noAnswers ∧
    parseImport 3 ⟨2, [("a", "b")]⟩ (some (.obj [("answers", .str "ab")]))
        = .ok ⟨0, [("0", "a"), ("1", "b")]⟩ :=
  ⟨(answers_presence_is_truthiness 3).1 ⟨2, [("a", "b")]⟩ _ (by rfl),
   (answers_presence_is_truthiness 3).2.2 ⟨2, [("a", "b")]⟩⟩

/-- C2 counterexample: the parsed document whose `answers` field is the
number 0 is an object and does have an `answers` field, yet the import
fails — the code's check is a truthiness check, so a present-but-falsy
`answers` is rejected, contradicting "fails exactly when … the parsed
value lacks an answers field". -/
theorem import_failure_not_presence_counterexample :
    isObjectType (.obj [("answers", .num 0)]) = true ∧
    (getField (.obj [("answers", .num 0)]) "answers").isSome = true ∧
    (parseImport 3 ⟨0, []⟩ (some (.obj [("answers", .num 0)]))).isOk
      = false := by
  refine ⟨rfl, rfl, ?_⟩
  rfl

/-- C2 (amended): the import fails exactly when the text is not
well-formed JSON, or the parsed value is falsy or not of object type,
or its `answers` property is absent or falsy; and on every failure the
state handed back by `handleFiles` is the prior state, unchanged. -/
theorem import_failure_characterization (n : ℕ) (s : AppState)
    (p : Option JsValue) :
    ((parseImport n s p).isOk = false ↔
      (p = none ∨ ∃ j, p = some j ∧
        (truthy j = false ∨ isObjectType j = false ∨
          truthyOpt (getField j "answers") = false))) ∧
    ((parseImport n s p).isOk = false → handleFiles n s p = (s, false)) := by
  constructor
  · cases p with
    | none =>
      constructor
      · intro _
        exact Or.inl rfl
      · intro _
        rfl
    | some j =>
      by_cases hg : (!truthy j || !isObjectType j
          || !truthyOpt (getField j "answers")) = true
      · rw [parseImport_guard_true n s j hg]
        constructor
        · intro _
          refine Or.inr ⟨j, rfl, ?_⟩
          simpa [or_assoc] using hg
        · intro _
          rfl
      · have hgf : (!truthy j || !isObjectType j
            || !truthyOpt (getField j "answers")) = false :=
          Bool.eq_false_iff.mpr hg
        obtain ⟨a, ha⟩ := guard_false_answers_some j hgf
        rw [parseImport_ok_eval n s j hgf a ha]
        constructor
        · intro hfalse
          exact absurd hfalse (by simp [Except.isOk, Except.toBool])
        · rintro (hnone | ⟨j', hj', hcond⟩)
          · exact absurd hnone (by simp)
          · cases Option.some.inj hj'
            obtain ⟨h1, h2, h3⟩ := guard_false_parts j hgf
            rcases hcond with hc | hc | hc
            · rw [h1] at hc
              exact absurd hc (by simp)
            · rw [h2] at hc
              exact absurd hc (by simp)
            · rw [h3] at hc
              exact absurd hc (by simp)
  · intro h
    unfold handleFiles
    cases hp : parseImport n s p with
    | ok s' =>
      rw [hp] at h
      exact absurd h (by simp [Except.isOk, Except.toBool])
    | error e => rfl

/-- Witness for C2's amended theorem at a concrete input: malformed
text leaves a populated state untouched. -/
theorem import_failure_characterization_witness :
    handleFiles 3 ⟨1, [("k", "v")]⟩ none = (⟨1, [("k", "v")]⟩, false) :=
  (import_failure_characterization 3 ⟨1, [("k", "v")]⟩ none).2 rfl

/-- A kept slug character is never a hyphen. -/
lemma isSlugChar_ne_hyphen (c : Char) (h : isSlugChar c = true) : c ≠ '-' := by
  intro hc
  subst hc
  exact absurd h (by decide)

/-- The output of `replaceRunsAux` in mid-run state never starts with a
hyphen. -/
lemma replaceRunsAux_true_head (m : List Char) :
    ∀ (c : Char) (cs : List Char),
      replaceRunsAux true m = c :: cs → c ≠ '-' := by
  induction m with
  | nil =>
    intro c cs h
    simp [replaceRunsAux] at h
  | cons d ms ih =>
    intro c cs h
    simp only [replaceRunsAux] at h
    by_cases hd : isSlugChar d = true
    · rw [if_pos hd] at h
      injection h with h1 _
      rw [← h1]
      exact isSlugChar_ne_hyphen d hd
    · rw [if_neg hd] at h
      simp only [if_true] at h
      exact ih c cs h

/-- `replaceRunsAux` never emits two adjacent hyphens. -/
lemma noAdj_replaceRunsAux (m : List Char) :
    ∀ b, NoAdjHyphens (replaceRunsAux b m) := by
  induction m with
  | nil =>
    intro b
    simp [replaceRunsAux, NoAdjHyphens]
  | cons d ms ih =>
    intro b
    simp only [replaceRunsAux]
    by_cases hd : isSlugChar d = true
    · rw [if_pos hd]
      rw [NoAdjHyphens, List.chain'_cons']
      refine ⟨?_, ih false⟩
      intro y hy hdh
      exact absurd hdh (isSlugChar_ne_hyphen d hd)
    · rw [if_neg hd]
      cases b with
      | true =>
        rw [if_pos rfl]
        exact ih true
      | false =>
        rw [if_neg (by simp)]
        rw [NoAdjHyphens, List.chain'_cons']
        refine ⟨?_, ih true⟩
        intro y hy _
        cases hh : replaceRunsAux true ms with
        | nil =>
          rw [hh] at hy
          cases hy
        | cons c cs =>
          rw [hh] at hy
          have hyc : c = y := by simpa using hy
          cases hyc
          exact replaceRunsAux_true_head ms _ cs hh

/-- Under the no-adjacent-hyphens invariant, dropping all leading
hyphens is the same as dropping one. -/
lemma dropWhile_eq_dropLeading (l : List Char) (h : NoAdjHyphens l) :
    List.dropWhile (fun c => c == '-') l = dropLeadingHyphen l := by
  cases l with
  | nil => rfl
  | cons c cs =>
    by_cases hc : c = '-'
    · subst hc
      rw [List.dropWhile_cons, if_pos (by simp)]
      have hdl : dropLeadingHyphen ('-' :: cs) = cs := by
        simp [dropLeadingHyphen]
      rw [hdl]
      cases cs with
      | nil => rfl
      | cons d ds =>
        have hd : d ≠ '-' := by
          rw [NoAdjHyphens, List.chain'_cons] at h
          exact h.1 rfl
        rw [List.dropWhile_cons, if_neg (by simpa using hd)]
    · rw [List.dropWhile_cons, if_neg (by simpa using hc)]
      have hdl : dropLeadingHyphen (c :: cs) = c :: cs := by
        simp [dropLeadingHyphen, hc]
      rw [hdl]

/-- The no-adjacent-hyphens invariant is symmetric under reversal. -/
lemma noAdj_reverse (l : List Char) (h : NoAdjHyphens l) :
    NoAdjHyphens l.reverse := by
  rw [NoAdjHyphens, List.chain'_reverse]
  exact List.Chain'.imp (fun a b hab hb ha => hab ha hb) h

/-- Dropping a leading hyphen preserves the invariant. -/
lemma noAdj_dropLeading (l : List Char) (h : NoAdjHyphens l) :
    NoAdjHyphens (dropLeadingHyphen l) := by
  cases l with
  | nil => exact h
  | cons c cs =>
    simp only [dropLeadingHyphen]
    by_cases hc : c = '-'
    · rw [if_pos hc]
      exact List.Chain'.tail h
    · rw [if_neg hc]
      exact h

/-- On a list with no two adjacent hyphens — such as any
`replaceRunsAux` output — the source's single-match trim and the
specification's trim-all coincide. -/
lemma trimOnce_eq_trimAll (l : List Char) (h : NoAdjHyphens l) :
    trimHyphensOnce l = trimAllHyphens l := by
  unfold trimHyphensOnce trimAllHyphens dropTrailingHyphen
  rw [dropWhile_eq_dropLeading l h,
      dropWhile_eq_dropLeading ((dropLeadingHyphen l).reverse)
        (noAdj_reverse _ (noAdj_dropLeading l h))]

/-- C5: `makeFieldId(pageIndex, question)` is exactly the prefix
`step-` + pageIndex + `-` followed by the slug computed as the
specification describes it (lower-case, canonical decomposition,
removal of the combining marks, single-hyphen replacement of non
`[a-z0-9]` runs, hyphen trimming); in particular it is a pure total
function and an empty slug degrades the identifier to the bare
prefix. -/
theorem makeFieldId_matches_spec_slug (pageIndex : ℕ) (question : String) :
    makeFieldId pageIndex question
      = "step-" ++ Nat.repr pageIndex ++ "-" ++ specSlugify question := by
  have hpred : isCombiningMark = inCombiningRange := rfl
  unfold makeFieldId slugify specSlugify
  rw [hpred, trimOnce_eq_trimAll _ (noAdj_replaceRunsAux _ false)]

/-- A one-digit number renders as its digit character. -/
lemma digitsRec_lt (m : ℕ) (h : m < 10) :
    digitsRec m = [Nat.digitChar m] := by
  conv_lhs => rw [digitsRec]
  rw [dif_pos h]

/-- A multi-digit number renders as its leading digits followed by its
last digit. -/
lemma digitsRec_ge (m : ℕ) (h : ¬ m < 10) :
    digitsRec m = digitsRec (m / 10) ++ [Nat.digitChar (m % 10)] := by
  conv_lhs => rw [digitsRec]
  rw [dif_neg h]

/-- Distinct decimal digits have distinct digit characters. -/
lemma digitChar_inj :
    ∀ a < 10, ∀ b < 10, Nat.digitChar a = Nat.digitChar b → a = b := by
  decide

/-- A decimal digit character is never a hyphen. -/
lemma digitChar_ne_hyphen : ∀ a < 10, Nat.digitChar a ≠ '-' := by
  decide

/-- The digit list of a number is never empty. -/
lemma digitsRec_ne_nil (m : ℕ) : digitsRec m ≠ [] := by
  by_cases h : m < 10
  · rw [digitsRec_lt m h]
    simp
  · rw [digitsRec_ge m h]
    simp

/-- No hyphen occurs among the decimal digits of a number. -/
lemma digitsRec_no_hyphen (m : ℕ) : ∀ c ∈ digitsRec m, c ≠ '-' := by
  induction m using Nat.strong_induction_on with
  | _ m ih =>
    intro c hc
    by_cases h : m < 10
    · rw [digitsRec_lt m h, List.mem_singleton] at hc
      subst hc
      exact digitChar_ne_hyphen m h
    · rw [digitsRec_ge m h, List.mem_append] at hc
      rcases hc with hc | hc
      · exact ih (m / 10) (Nat.div_lt_self (by omega) (by omega)) c hc
      · rw [List.mem_singleton] at hc
        subst hc
        exact digitChar_ne_hyphen (m % 10) (Nat.mod_lt m (by omega))

/-- One unfolding step of the fueled core of `Nat.toDigits`. -/
lemma toDigitsCore_succ (b f n : ℕ) (ds : List Char) :
    Nat.toDigitsCore b (f + 1) n ds =
      if n / b = 0 then Nat.digitChar (n % b) :: ds
      else Nat.toDigitsCore b f (n / b) (Nat.digitChar (n % b) :: ds) := by
  rfl

/-- With enough fuel, the core of `Nat.toDigits` computes `digitsRec`
prepended to the accumulator. -/
lemma toDigitsCore_eq_digitsRec :
    ∀ (f m : ℕ) (acc : List Char), m < 10 ^ (f + 1) →
      Nat.toDigitsCore 10 (f + 1) m acc = digitsRec m ++ acc := by
  intro f
  induction f with
  | zero =>
    intro m acc hm
    rw [pow_one] at hm
    rw [toDigitsCore_succ]
    rw [if_pos (Nat.div_eq_of_lt hm), digitsRec_lt m hm,
        Nat.mod_eq_of_lt hm]
    rfl
  | succ f ih =>
    intro m acc hm
    rw [toDigitsCore_succ]
    by_cases hdiv : m / 10 = 0
    · have hm10 : m < 10 := by omega
      rw [if_pos hdiv, digitsRec_lt m hm10, Nat.mod_eq_of_lt hm10]
      rfl
    · rw [if_neg hdiv]
      have hlt : m / 10 < 10 ^ (f + 1) := by
        rw [Nat.div_lt_iff_lt_mul (by omega)]
        rw [← pow_succ]
        exact hm
      rw [ih (m / 10) (Nat.digitChar (m % 10) :: acc) hlt,
          digitsRec_ge m (by omega), List.append_assoc]
      rfl

/-- The character data of `Nat.repr` is `digitsRec`. -/
lemma repr_eq_digitsRec (m : ℕ) : (Nat.repr m).data = digitsRec m := by
  have h : m < 10 ^ (m + 1) :=
    lt_of_lt_of_le (Nat.lt_pow_self (by norm_num) m)
      (pow_le_pow_right₀ (by norm_num) (Nat.le_succ m))
  show (List.asString (Nat.toDigitsCore 10 (m + 1) m [])).data = _
  rw [toDigitsCore_eq_digitsRec m m [] h, List.append_nil]
  rfl

/-- The decimal digit list determines the number. -/
lemma digitsRec_injective : ∀ (a b : ℕ), digitsRec a = digitsRec b → a = b := by
  intro a
  induction a using Nat.strong_induction_on with
  | _ a ih =>
    intro b h
    by_cases ha : a < 10 <;> by_cases hb : b < 10
    · rw [digitsRec_lt a ha, digitsRec_lt b hb] at h
      injection h with h1 _
      exact digitChar_inj a ha b hb h1
    · rw [digitsRec_lt a ha, digitsRec_ge b hb] at h
      have hlen := congrArg List.length h
      rw [List.length_append, List.length_singleton,
          List.length_singleton] at hlen
      have h0 : (digitsRec (b / 10)).length = 0 := by omega
      exact absurd (List.length_eq_zero.mp h0) (digitsRec_ne_nil (b / 10))
    · rw [digitsRec_ge a ha, digitsRec_lt b hb] at h
      have hlen := congrArg List.length h
      rw [List.length_append, List.length_singleton,
          List.length_singleton] at hlen
      have h0 : (digitsRec (a / 10)).length = 0 := by omega
      exact absurd (List.length_eq_zero.mp h0) (digitsRec_ne_nil (a / 10))
    · rw [digitsRec_ge a ha, digitsRec_ge b hb] at h
      obtain ⟨h1, h2⟩ := List.append_inj' h (by simp)
      injection h2 with h2' _
      have hmod : a % 10 = b % 10 :=
        digitChar_inj _ (Nat.mod_lt a (by omega)) _
          (Nat.mod_lt b (by omega)) h2'
      have hdiv : a / 10 = b / 10 :=
        ih (a / 10) (Nat.div_lt_self (by omega) (by omega)) (b / 10) h1
      omega

/-- `Nat.repr` is injective. -/
lemma nat_repr_injective (a b : ℕ) (h : Nat.repr a = Nat.repr b) : a = b := by
  apply digitsRec_injective
  rw [← repr_eq_digitsRec, ← repr_eq_digitsRec, h]

/-- `Nat.repr` never contains a hyphen. -/
lemma nat_repr_no_hyphen (m : ℕ) : ∀ c ∈ (Nat.repr m).data, c ≠ '-' := by
  rw [repr_eq_digitsRec]
  exact digitsRec_no_hyphen m

/-- Splitting lists at the first hyphen: when neither prefix contains a
hyphen, equal concatenations have equal prefixes. -/
lemma append_hyphen_split :
    ∀ (xs xs' ys ys' : List Char),
      (∀ c ∈ xs, c ≠ '-') → (∀ c ∈ xs', c ≠ '-') →
      xs ++ '-' :: ys = xs' ++ '-' :: ys' → xs = xs' := by
  intro xs
  induction xs with
  | nil =>
    intro xs' ys ys' _ hx' h
    cases xs' with
    | nil => rfl
    | cons c cs =>
      rw [List.nil_append] at h
      injection h with h1 _
      exact absurd h1.symm (hx' c (List.mem_cons_self c cs))
  | cons c cs ih =>
    intro xs' ys ys' hx hx' h
    cases xs' with
    | nil =>
      rw [List.nil_append] at h
      injection h with h1 _
      exact absurd h1 (hx c (List.mem_cons_self c cs))
    | cons d ds =>
      injection h with h1 h2
      subst h1
      rw [ih ds ys ys' (fun e he => hx e (List.mem_cons_of_mem c he))
            (fun e he => hx' e (List.mem_cons_of_mem c he)) h2]

/-- C6 counterexample: the distinct pairs `(0, "A")` and `(0, "a")`
produce the same field identifier `step-0-a`, because the slug
lower-cases the question — `makeFieldId` is not collision-free on
distinct `(pageIndex, question)` pairs. -/
theorem makeFieldId_collision_counterexample :
    ((0, "A") : ℕ × String) ≠ (0, "a") ∧
    makeFieldId 0 "A" = makeFieldId 0 "a" := by
  refine ⟨by decide, ?_⟩
  rfl

/-- C6 (amended): identifiers derived from distinct page indexes are
always distinct, whatever the questions, because the decimal page index
occupies the segment between the fixed prefix and the first hyphen;
identifiers from the same page can however collide for distinct
questions (see the counterexample). -/
theorem makeFieldId_distinct_pages_distinct (p1 p2 : ℕ) (q1 q2 : String)
    (h : p1 ≠ p2) : makeFieldId p1 q1 ≠ makeFieldId p2 q2 := by
  intro heq
  apply h
  apply nat_repr_injective
  apply String.ext
  have h0 := congrArg String.data heq
  simp only [makeFieldId, String.data_append, List.append_assoc] at h0
  have h1 := List.append_cancel_left h0
  have hd : (Nat.repr p1).data ++ '-' :: (slugify q1).data
      = (Nat.repr p2).data ++ '-' :: (slugify q2).data := h1
  exact append_hyphen_split _ _ _ _ (nat_repr_no_hyphen p1)
    (nat_repr_no_hyphen p2) hd

/-- Witness for C6's amended theorem at a concrete input: pages 1 and
12 yield distinct identifiers even for slugs chosen to make the raw
concatenations resemble each other. -/
theorem makeFieldId_distinct_pages_distinct_witness :
    makeFieldId 1 "2-x" ≠ makeFieldId 12 "x" :=
  makeFieldId_distinct_pages_distinct 1 12 "2-x" "x" (by decide)
